import Mathlib

/-!
Shallow embedding of the chain core of go-qrl (src/core/chain/chain.go).

Byte strings ([]byte) are modelled as lists of naturals; reflect.DeepEqual
on byte strings is list equality.  The persistent Store (core/state, a
collaborator of this file's code) is modelled from the spec's interface
(section 6): typed views over blocks, the block-number mapping, block
metadata, address states, the chain height and the single fork-state
record, with GetBatch/WriteBatch as the only atomic multi-key commit.
A leveldb batch is a buffered list of write events; reads during an open
batch see only the committed store, exactly as in leveldb.  Every store
write and collaborator call is also recorded in an event trace so that
batching behaviour (what was committed atomically) is observable.
Go panics (nil dereferences, out-of-range indices) and fuel exhaustion of
the loop embeddings surface as Except.error.
-/

namespace GoQrl

/-- Model of Go byte strings ([]byte): lists of naturals. -/
abbrev Bytes := List Nat

/-- Per-address state, reduced to its opaque payload (balance etc.).
The chain core only moves these values around. -/
abbrev AddrMap := List (Bytes × Nat)

/-- Association-list lookup (first binding wins), the model of a keyed
store read. -/
def alookup {κ α : Type} [DecidableEq κ] : List (κ × α) → κ → Option α
  | [], _ => none
  | (k', v) :: t, k => if k' = k then some v else alookup t k

/-- Association-list update/insert, the model of a keyed store write. -/
def aupdate {κ α : Type} [DecidableEq κ] : List (κ × α) → κ → α → List (κ × α)
  | [], k, v => [(k, v)]
  | (k', v') :: t, k, v =>
    if k' = k then (k, v) :: t else (k', v') :: aupdate t k v

/-- Association-list removal, the model of a keyed store delete. -/
def aremove {κ α : Type} [DecidableEq κ] : List (κ × α) → κ → List (κ × α)
  | [], _ => []
  | (k', v') :: t, k => if k' = k then t else (k', v') :: aremove t k

/-- A transaction of a block, as far as the chain core touches it:
whether it is the coinbase (index 0), its one-time-signature key index,
the address derived from its public key, and the state mutation its
RevertStateChanges performs on an address-state map. -/
structure Tx where
  isCoinbase : Bool
  otsKey : Nat
  addrFromPK : Bytes
  revertStateChanges : AddrMap → AddrMap

/-- A block, as consumed by the chain core.  PrepareAddressesList yields
the touched-address set; ApplyStateChanges mutates an address-state map
and reports success (some mutated map) or semantic failure (none). -/
structure Block where
  headerHash : Bytes
  prevHeaderHash : Bytes
  blockNumber : Nat
  blockSize : Nat
  transactions : List Tx
  prepareAddressesList : List Bytes
  applyStateChanges : AddrMap → Option AddrMap

/-- generated.BlockNumberMapping: canonical (headerhash, prev) per height. -/
structure BlockNumberMapping where
  headerhash : Bytes
  prevHeaderhash : Bytes
deriving DecidableEq

/-- metadata.BlockMetaData, reduced to the two difficulties the chain
core reads (child hashes are never consumed by chain.go). -/
structure BlockMetaData where
  blockDifficulty : Nat
  totalDifficulty : Nat
deriving DecidableEq

/-- generated.ForkState, the persisted reorg-recovery record. -/
structure ForkStateRec where
  initiatorHeaderhash : Bytes
  forkPointHeaderhash : Bytes
  newMainchainHashPath : List Bytes
  oldMainchainHashPath : List Bytes
deriving DecidableEq

/-- Modelled from the spec: the Store collaborator (section 6), as the
chain core consumes it.  sizeLimitOf is GetBlockSizeLimit's result
(none = error); addrsPutOk / putBlockOk pin the success of
PutAddressesState / PutBlock for a given run. -/
structure GoStore where
  blocks : List (Bytes × Block)
  numMapping : List (Nat × BlockNumberMapping)
  metadata : List (Bytes × BlockMetaData)
  addrStates : AddrMap
  chainHeight : Option Nat
  forkState : Option ForkStateRec
  txMeta : List Bytes
  sizeLimitOf : Option Nat
  addrsPutOk : Bool
  putBlockOk : Bool

/-- A single store write, as buffered into a leveldb batch or applied
immediately when the Go code passes a nil batch. -/
inductive WSt
  | putBlock (b : Block)
  | putNumMapping (n : Nat) (m : BlockNumberMapping)
  | putMetadata (hh : Bytes) (md : BlockMetaData)
  | putAddrs (m : AddrMap)
  | putChainHeight (h : Nat)
  | putForkState (fs : ForkStateRec)
  | updateTxMeta (hh : Bytes)
  | rollbackTxMeta (hh : Bytes)
  | removeNumMapping (n : Nat)
  | deleteForkState

/-- TransactionPool collaborator calls made by the chain core. -/
inductive PoolEv
  | removeTxInBlock (hh : Bytes)
  | addTxFromBlock (hh : Bytes) (n : Nat)
  | checkStale (n : Nat)

/-- Observable trace of a run: immediate store writes, atomic batch
commits, transaction-pool calls, and the per-transaction revert /
one-time-signature-clear collaborator calls of block removal. -/
inductive TraceEv
  | imm (w : WSt)
  | bat (ws : List WSt)
  | pool (p : PoolEv)
  | revertTx (i : Nat)
  | unsetOTS (addr : Bytes) (k : Nat)

/-- A leveldb batch: the buffered writes, in order. -/
abbrev Batch := List WSt

/-- Apply one write event to the store. -/
def applyW (s : GoStore) : WSt → GoStore
  | .putBlock b => { s with blocks := aupdate s.blocks b.headerHash b }
  | .putNumMapping n m => { s with numMapping := aupdate s.numMapping n m }
  | .putMetadata hh md => { s with metadata := aupdate s.metadata hh md }
  | .putAddrs m =>
    { s with addrStates := m.foldl (fun a p => aupdate a p.1 p.2) s.addrStates }
  | .putChainHeight h => { s with chainHeight := some h }
  | .putForkState fs => { s with forkState := some fs }
  | .updateTxMeta hh => { s with txMeta := hh :: s.txMeta }
  | .rollbackTxMeta hh => { s with txMeta := s.txMeta.erase hh }
  | .removeNumMapping n => { s with numMapping := aremove s.numMapping n }
  | .deleteForkState => { s with forkState := none }

/-- Store.GetBlock: block body by header hash. -/
def getBlock (s : GoStore) (hh : Bytes) : Option Block :=
  alookup s.blocks hh

/-- Store.GetBlockByNumber: the canonical block at a height, through the
BlockNumberMapping. -/
def getBlockByNumber (s : GoStore) (n : Nat) : Option Block :=
  match alookup s.numMapping n with
  | none => none
  | some m => getBlock s m.headerhash

/-- Store.GetBlockMetadata. -/
def getBlockMetadata (s : GoStore) (hh : Bytes) : Option BlockMetaData :=
  alookup s.metadata hh

/-- Store.GetAddressesState: materialise the requested addresses from the
store; a missing address gets the default state (0). -/
def getAddressesState (s : GoStore) (addrs : List Bytes) : AddrMap :=
  addrs.map (fun a => (a, (alookup s.addrStates a).getD 0))

/-- Go uint64 subtraction a - b, with wrap-around at 2 ^ 64 (operands are
assumed reduced, as every height and reorg limit in the program is). -/
def subU64 (a b : Nat) : Nat :=
  (a + (2 ^ 64 - b % 2 ^ 64)) % 2 ^ 64

/-- config.Config as consumed by chain.go, together with the genesis
package data the cold start reads (balances, the coinbase transaction
and the transfer transactions of the genesis block) and the
DifficultyTracker collaborator as an opaque function. -/
structure Cfg where
  reorgLimit : Nat
  miningSetpointBlocktime : Nat
  genesisDifficulty : Nat
  dtGet : Nat → Nat → Nat
  genesisBalances : List (Bytes × Nat)
  genesisCoinbaseAddrTo : Bytes
  genesisCoinbaseValid : Bool
  genesisCoinbaseApply : AddrMap → AddrMap
  genesisTransfersAddrsTo : List (List Bytes)
  genesisTransfersApply : List (AddrMap → AddrMap)
  genesisBlockNumber : Nat

/-- The Chain struct: config, the store, the in-memory tip pointer
(lastBlock, nil until assigned), the current difficulty, the miner
trigger flag, and the observable event trace of the run. -/
structure ChainSt where
  config : Cfg
  store : GoStore
  lastBlock : Option Block
  currentDifficulty : Nat
  triggerMiner : Bool
  events : List TraceEv

/-- Record a collaborator-call event. -/
def pushEv (c : ChainSt) (e : TraceEv) : ChainSt :=
  { c with events := c.events ++ [e] }

/-- An immediate (nil-batch) store write: applied at once, traced as such. -/
def stWrite (c : ChainSt) (w : WSt) : ChainSt :=
  { c with store := applyW c.store w, events := c.events ++ [.imm w] }

/-- Store.WriteBatch: commit a batch atomically. -/
def stCommit (c : ChainSt) (batch : Batch) : ChainSt :=
  { c with store := batch.foldl applyW c.store, events := c.events ++ [.bat batch] }

/-- A TransactionPool call (in-memory collaborator; traced). -/
def poolCall (c : ChainSt) (p : PoolEv) : ChainSt :=
  pushEv c (.pool p)

/-- Number of atomic batch commits in a trace. -/
def countBat : List TraceEv → Nat
  | [] => 0
  | .bat _ :: t => countBat t + 1
  | _ :: t => countBat t

/-- The panic message used for every modelled nil dereference. -/
def nilPanic : String := "panic: nil dereference"

/-- The error message used when a loop embedding runs out of fuel. -/
def fuelMsg : String := "model: out of fuel"

/-- chain.go Height(): c.lastBlock.BlockNumber(); dereferences the tip
pointer, so a nil tip is a panic. -/
def Height (c : ChainSt) : Except String Nat :=
  match c.lastBlock with
  | none => .error nilPanic
  | some b => .ok b.blockNumber

/-- chain.go applyBlock: materialise the touched addresses, run the
block's ApplyStateChanges, and on success put the mutated map into the
batch (PutAddressesState can itself fail, per the store flag). -/
def applyBlock (c : ChainSt) (block : Block) (batch : Batch) : Bool × Batch :=
  let addressesState := getAddressesState c.store block.prepareAddressesList
  match block.applyStateChanges addressesState with
  | none => (false, batch)
  | some m =>
    if c.store.addrsPutOk then (true, batch ++ [.putAddrs m])
    else (false, batch)

/-- chain.go updateBlockNumberMapping: put the (headerhash, prev) record
for the block's height into the batch. -/
def updateBlockNumberMapping (block : Block) (batch : Batch) : Batch :=
  batch ++ [.putNumMapping block.blockNumber
    { headerhash := block.headerHash, prevHeaderhash := block.prevHeaderHash }]

/-- chain.go updateChainState: move the tip pointer, record the number
mapping, drop the block's transactions from the pool, and put the new
chain height and transaction metadata into the batch. -/
def updateChainState (c : ChainSt) (block : Block) (batch : Batch) :
    ChainSt × Batch :=
  let c := { c with lastBlock := some block }
  let batch := updateBlockNumberMapping block batch
  let c := poolCall c (.removeTxInBlock block.headerHash)
  let batch := batch ++ [.putChainHeight block.blockNumber]
  let batch := batch ++ [.updateTxMeta block.headerHash]
  (c, batch)

/-- The transaction loop of RemoveBlockFromMainchain:
for i := len(txs) - 1; i <= 0; i-- over Go ints, with fuel (len + 2
always suffices, since the loop exits or panics within two steps).
Each executed iteration reverts txs[i] and calls UnsetOTSKey with that
transaction's address and OTS key (both traced); indexing outside the
slice is a Go panic.  The loop condition is i <= 0 exactly as written
in the source. -/
def revertTxsLoop (fuel : Nat) (c : ChainSt) (txs : List Tx) (i : Int)
    (m : AddrMap) : Except String (ChainSt × AddrMap) :=
  match fuel with
  | 0 => .error fuelMsg
  | fuel + 1 =>
    if i ≤ 0 then
      if hlt : 0 ≤ i ∧ i < (txs.length : Int) then
        let tx := txs.get ⟨i.toNat, by omega⟩
        let m' := tx.revertStateChanges m
        match alookup m' tx.addrFromPK with
        | none => .error nilPanic
        | some _ =>
          let c := pushEv c (.revertTx i.toNat)
          let c := pushEv c (.unsetOTS tx.addrFromPK tx.otsKey)
          revertTxsLoop fuel c txs (i - 1) m'
      else .error "panic: index out of range"
    else .ok (c, m)

/-- chain.go RemoveBlockFromMainchain: materialise the touched
addresses, run the (inverted-bound) revert loop, re-add the block's
transactions to the pool, put the decremented chain height (uint64) and
the transaction-metadata rollback into the batch, remove the number
mapping immediately (no batch argument in the source), and put the
address map into the batch. -/
def RemoveBlockFromMainchain (c : ChainSt) (block : Block)
    (blockNumber : Nat) (batch : Batch) : Except String (ChainSt × Batch) :=
  let addressesState := getAddressesState c.store block.prepareAddressesList
  match revertTxsLoop (block.transactions.length + 2) c block.transactions
      ((block.transactions.length : Int) - 1) addressesState with
  | .error e => .error e
  | .ok (c, m) =>
    let c := poolCall c (.addTxFromBlock block.headerHash blockNumber)
    let batch := batch ++ [.putChainHeight (subU64 block.blockNumber 1)]
    let batch := batch ++ [.rollbackTxMeta block.headerHash]
    let c := stWrite c (.removeNumMapping block.blockNumber)
    let batch := batch ++ [.putAddrs m]
    .ok (c, batch)

/-- The loop of chain.go Rollback, with fuel.  While the tip's header
hash differs from forkedHeaderHash: reload the tip block, look up the
canonical block at its height, and break if the two header hashes are
EQUAL (the source's reflect.DeepEqual break); otherwise append the tip
hash to hashPath, remove the block (one batch per iteration, with the
updated ForkState put into the same batch when one is supplied), commit,
and reload the tip as the parent (which may be nil).  Missing blocks are
nil dereferences in the source, hence panics here. -/
def RollbackLoop (fuel : Nat) (c : ChainSt) (forkedHeaderHash : Bytes)
    (forkState : Option ForkStateRec) (hashPath : List Bytes) :
    Except String (List Bytes × Option ForkStateRec × ChainSt) :=
  match fuel with
  | 0 => .error fuelMsg
  | fuel + 1 =>
    match c.lastBlock with
    | none => .error nilPanic
    | some lb =>
      if lb.headerHash = forkedHeaderHash then .ok (hashPath, forkState, c)
      else
        match getBlock c.store lb.headerHash with
        | none => .error nilPanic
        | some b =>
          match getBlockByNumber c.store b.blockNumber with
          | none => .error nilPanic
          | some mainchainBlock =>
            if b.headerHash = mainchainBlock.headerHash then
              .ok (hashPath, forkState, c)
            else
              let hashPath := hashPath ++ [lb.headerHash]
              match RemoveBlockFromMainchain c lb b.blockNumber [] with
              | .error e => .error e
              | .ok (c, batch) =>
                let forkState :=
                  match forkState with
                  | some fs => some { fs with oldMainchainHashPath :=
                      fs.oldMainchainHashPath ++ [lb.headerHash] }
                  | none => none
                let batch :=
                  match forkState with
                  | some fs => batch ++ [.putForkState fs]
                  | none => batch
                let c := stCommit c batch
                let c := { c with lastBlock := getBlock c.store lb.prevHeaderHash }
                RollbackLoop fuel c forkedHeaderHash forkState hashPath

/-- chain.go Rollback: run the rollback loop starting from an empty
hashPath.  Returns the collected hash path, the (pointer-updated)
ForkState and the resulting chain. -/
def Rollback (fuel : Nat) (c : ChainSt) (forkedHeaderHash : Bytes)
    (forkState : Option ForkStateRec) :
    Except String (List Bytes × Option ForkStateRec × ChainSt) :=
  RollbackLoop fuel c forkedHeaderHash forkState []

/-- Canonical-match test of GetForkPoint and the spec-side walk: the
BlockNumberMapping entry at the block's height resolves to a block with
the same header hash. -/
def canonicalChk (s : GoStore) (b : Block) : Bool :=
  match getBlockByNumber s b.blockNumber with
  | some mb => mb.headerHash = b.headerHash
  | none => false

/-- Error message of GetForkPoint at an unmatched genesis. -/
def gfpGenesisMsg : String := "Alternate chain genesis is different"

/-- Error message of GetForkPoint at a missing parent. -/
def gfpNoBlockMsg : String := "No Block Found"

/-- The loop of chain.go GetForkPoint, with fuel.  The outer Except is
the model layer (fuel, and the nil-block panic: the source's error
construction on a nil block dereferences it); the inner Except is the
function's own Go error return.  Walk parents, collecting header hashes,
until the canonical block at the current height has the same header
hash; error at an unmatched height 0 or a missing parent. -/
def GetForkPointLoop (fuel : Nat) (s : GoStore) (blk : Option Block)
    (hashPath : List Bytes) :
    Except String (Except String (Bytes × List Bytes)) :=
  match fuel with
  | 0 => .error fuelMsg
  | fuel + 1 =>
    match blk with
    | none => .error nilPanic
    | some b =>
      if canonicalChk s b then .ok (.ok (b.headerHash, hashPath))
      else if b.blockNumber = 0 then .ok (.error gfpGenesisMsg)
      else
        match getBlock s b.prevHeaderHash with
        | none => .ok (.error gfpNoBlockMsg)
        | some p => GetForkPointLoop fuel s (some p) (hashPath ++ [b.headerHash])

/-- chain.go GetForkPoint: run the walk from the given block with an
empty hash path. -/
def GetForkPoint (fuel : Nat) (c : ChainSt) (block : Block) :
    Except String (Except String (Bytes × List Bytes)) :=
  GetForkPointLoop fuel c.store (some block) []

/-- The second loop of chain.go AddChain: for each remaining hash, load
the block (a missing block is a nil dereference inside applyBlock),
open a batch, applyBlock (failure returns false immediately, dropping
the batch and keeping the stored ForkState), updateChainState, and
commit the batch; after the loop, delete the ForkState (an immediate,
batchless write) and return true. -/
def AddChainLoop (c : ChainSt) : List Bytes → Except String (Bool × ChainSt)
  | [] =>
    let c := stWrite c .deleteForkState
    .ok (true, c)
  | headerHash :: rest =>
    match getBlock c.store headerHash with
    | none => .error nilPanic
    | some block =>
      match applyBlock c block [] with
      | (false, _) => .ok (false, c)
      | (true, batch) =>
        let (c, batch) := updateChainState c block batch
        let c := stCommit c batch
        AddChainLoop c rest

/-- The first loop of chain.go AddChain: start is the index after the
first occurrence of the tip's header hash, and stays 0 when the tip
does not occur. -/
def findStartAux (tipHash : Bytes) : List Bytes → Nat → Nat
  | [], _ => 0
  | h :: t, i => if h = tipHash then i + 1 else findStartAux tipHash t (i + 1)

/-- chain.go AddChain: skip the prefix up to and including the current
tip (dereferencing the tip pointer only when the path is non-empty,
as the source's loop does), then apply the remaining hashes.  The
forkState argument is unused by the source body. -/
def AddChain (c : ChainSt) (hashPath : List Bytes)
    (forkState : Option ForkStateRec) : Except String (Bool × ChainSt) :=
  match hashPath with
  | [] => AddChainLoop c []
  | _ :: _ =>
    match c.lastBlock with
    | none => .error nilPanic
    | some lb => AddChainLoop c (hashPath.drop (findStartAux lb.headerHash hashPath 0))

/-- misc.Reverse on a hash path. -/
def reverseGo (l : List Bytes) : List Bytes := l.reverse

/-- The tail of chain.go forkRecovery, after the fork-point branch: the
values of the OUTER local variables forkHeaderHash and hashPath at that
program point are passed in explicitly (in the fresh-fork branch the
source's := inside the else block shadows them, so the outer variables
still hold their zero values there).  Detect whether rollback already
completed from the persisted old path, roll back if not, apply the new
chain, and on failure restore the old chain. -/
def forkRecoveryRest (fuel : Nat) (c : ChainSt) (forkHeaderHash : Bytes)
    (hashPath : List Bytes) (forkState : ForkStateRec) :
    Except String (Bool × ChainSt) :=
  let rollbackDone :=
    match forkState.oldMainchainHashPath.getLast? with
    | none => false
    | some lastHash =>
      match getBlock c.store lastHash with
      | none => false
      | some b => b.prevHeaderHash = forkState.forkPointHeaderhash
  match (if rollbackDone then
          .ok (forkState.oldMainchainHashPath, some forkState, c)
         else Rollback fuel c forkHeaderHash (some forkState)) with
  | .error e => .error e
  | .ok (oldHashPath, forkStateOpt, c) =>
    let forkState := forkStateOpt.getD forkState
    match AddChain c (reverseGo hashPath) (some forkState) with
    | .error e => .error e
    | .ok (true, c) =>
      let c := { c with triggerMiner := true }
      .ok (true, c)
    | .ok (false, c) =>
      match Rollback fuel c forkHeaderHash none with
      | .error e => .error e
      | .ok (_, _, c) =>
        match AddChain c (reverseGo oldHashPath) (some forkState) with
        | .error e => .error e
        | .ok (_, c) => .ok (false, c)

/-- chain.go forkRecovery.  Resume branch (fork point already recorded):
the outer locals receive the persisted fork point and new path.  Fresh
branch: GetForkPoint's results are bound with := inside the else block,
shadowing the outer locals; its error return is discarded (a Go error
yields zero-valued results which are then persisted); the discovered
values are stored into the ForkState and persisted with a nil batch,
but the OUTER forkHeaderHash and hashPath stay zero-valued ([], []) for
the rest of the function. -/
def forkRecovery (fuel : Nat) (c : ChainSt) (block : Block)
    (forkState : ForkStateRec) : Except String (Bool × ChainSt) :=
  if forkState.forkPointHeaderhash.length > 0 then
    forkRecoveryRest fuel c forkState.forkPointHeaderhash
      forkState.newMainchainHashPath forkState
  else
    match GetForkPoint fuel c block with
    | .error e => .error e
    | .ok r =>
      let innerForkHeaderHash := match r with | .ok (fp, _) => fp | .error _ => []
      let innerHashPath := match r with | .ok (_, hp) => hp | .error _ => []
      let forkState := { forkState with
        forkPointHeaderhash := innerForkHeaderHash,
        newMainchainHashPath := innerHashPath }
      let c := stWrite c (.putForkState forkState)
      forkRecoveryRest fuel c [] [] forkState

/-- chain.go addBlock (the lower-case helper).  Size check (skipped when
GetBlockSizeLimit errors), applyBlock when the block extends the tip,
PutBlock into the batch, read both metadata records from the committed
store (errors are ignored in the source, so a missing record is a nil
dereference), and compare cumulative difficulties: strictly heavier
with a non-tip parent opens and persists a ForkState, commits the batch
and enters forkRecovery; strictly heavier on the tip extends the chain
state; otherwise the block is a side block.  Returns (added, forking)
with the batch still open in the non-forking cases. -/
def addBlock (fuel : Nat) (c : ChainSt) (block : Block) (batch : Batch) :
    Except String (Bool × Bool × ChainSt × Batch) :=
  let sizeReject :=
    match c.store.sizeLimitOf with
    | some lim => decide (block.blockSize > lim)
    | none => false
  if sizeReject then .ok (false, false, c, batch)
  else
    match c.lastBlock with
    | none => .error nilPanic
    | some lb =>
      match (if lb.headerHash = block.prevHeaderHash then
               (match applyBlock c block batch with
                | (false, _) => none
                | (true, batch) => some batch)
             else some batch : Option Batch) with
      | none => .ok (false, false, c, batch)
      | some batch =>
        if c.store.putBlockOk = false then .ok (false, false, c, batch)
        else
          let batch := batch ++ [.putBlock block]
          match getBlockMetadata c.store lb.headerHash with
          | none => .error nilPanic
          | some lastBlockMetadata =>
            match getBlockMetadata c.store block.headerHash with
            | none => .error nilPanic
            | some newBlockMetadata =>
              if newBlockMetadata.totalDifficulty >
                  lastBlockMetadata.totalDifficulty then
                if ¬ (lb.headerHash = block.prevHeaderHash) then
                  let forkState : ForkStateRec :=
                    { initiatorHeaderhash := block.headerHash,
                      forkPointHeaderhash := [],
                      newMainchainHashPath := [],
                      oldMainchainHashPath := [] }
                  let batch := batch ++ [.putForkState forkState]
                  let c := stCommit c batch
                  match forkRecovery fuel c block forkState with
                  | .error e => .error e
                  | .ok (ok, c) => .ok (ok, true, c, [])
                else
                  let (c, batch) := updateChainState c block batch
                  let c := poolCall c (.checkStale block.blockNumber)
                  let c := { c with triggerMiner := true }
                  .ok (true, false, c, batch)
              else .ok (true, false, c, batch)

/-- chain.go AddBlock: reject below the re-org window (Height() minus
the reorg limit, computed over uint64) or when the header hash is
already stored; otherwise run addBlock with a fresh batch and commit it
unless fork recovery already committed its own batches. -/
def AddBlock (fuel : Nat) (c : ChainSt) (block : Block) :
    Except String (Bool × ChainSt) :=
  match c.lastBlock with
  | none => .error nilPanic
  | some lb =>
    if block.blockNumber < subU64 lb.blockNumber c.config.reorgLimit then
      .ok (false, c)
    else if (getBlock c.store block.headerHash).isSome then
      .ok (false, c)
    else
      match addBlock fuel c block [] with
      | .error e => .error e
      | .ok (blockFlag, forkFlag, c, batch) =>
        if blockFlag then
          let c := if forkFlag then c else stCommit c batch
          .ok (true, c)
        else .ok (false, c)

/-- The genesis address-state map built by the cold-start branch of
Load: default states seeded with the configured balances, then default
states for every transfer recipient and for the coinbase recipient,
then the coinbase's state changes, then every transfer's state changes
in order. -/
def genesisAddressesState (cfg : Cfg) : AddrMap :=
  let m := cfg.genesisBalances.foldl (fun m p => aupdate m p.1 p.2) []
  let m := cfg.genesisTransfersAddrsTo.foldl
    (fun m addrs => addrs.foldl (fun m a => aupdate m a 0) m) m
  let m := aupdate m cfg.genesisCoinbaseAddrTo 0
  let m := cfg.genesisCoinbaseApply m
  cfg.genesisTransfersApply.foldl (fun m f => f m) m

/-- chain.go Load.  Cold start (no chain height in the store): persist
the genesis block, its number mapping and metadata, build the genesis
address-state map, validate the coinbase (failure aborts, after the
first three writes have already been applied), then persist the address
states, the transaction metadata and chain height 0 — every one of
these writes passes a nil batch in the source, i.e. is an immediate,
non-batched write, and lastBlock is never assigned.  Warm start: load
the tip by height (the error is ignored in the source, so a missing tip
block is a nil dereference at the metadata read), set the current
difficulty, and resume fork recovery when a ForkState is persisted. -/
def Load (fuel : Nat) (c : ChainSt) (genesisBlock : Block) :
    Except String ChainSt :=
  match c.store.chainHeight with
  | none =>
    let c := stWrite c (.putBlock genesisBlock)
    let c := stWrite c (.putNumMapping genesisBlock.blockNumber
      { headerhash := genesisBlock.headerHash,
        prevHeaderhash := genesisBlock.prevHeaderHash })
    let currentDifficulty := c.config.dtGet c.config.miningSetpointBlocktime
      c.config.genesisDifficulty
    let c := stWrite c (.putMetadata genesisBlock.headerHash
      { blockDifficulty := currentDifficulty,
        totalDifficulty := currentDifficulty })
    if c.config.genesisCoinbaseValid = false then
      .error "coinbase validation failed"
    else
      let c := stWrite c (.putAddrs (genesisAddressesState c.config))
      let c := stWrite c (.updateTxMeta genesisBlock.headerHash)
      let c := stWrite c (.putChainHeight 0)
      .ok c
  | some h =>
    let lb := getBlockByNumber c.store h
    let c := { c with lastBlock := lb }
    match lb with
    | none => .error nilPanic
    | some lbb =>
      match getBlockMetadata c.store lbb.headerHash with
      | none => .error "GetBlockMetadata failed"
      | some blockMetadata =>
        let c := { c with currentDifficulty := blockMetadata.blockDifficulty }
        match c.store.forkState with
        | none => .ok c
        | some forkState =>
          match getBlock c.store forkState.initiatorHeaderhash with
          | none => .error "No Block found"
          | some b =>
            match forkRecovery fuel c b forkState with
            | .error e => .error e
            | .ok (_, c) => .ok c

/-- A block whose ApplyStateChanges always succeeds. -/
def appliesAll (b : Block) : Prop :=
  ∀ m, (b.applyStateChanges m).isSome = true

/-- Spec-side characterisation of section 4.6 (fork-point discovery):
a parent walk from the given block whose collected hashes are exactly
the non-canonical blocks visited, ending (exclusively) at the first
block whose header hash matches the canonical block at its height. -/
inductive ForkWalkSpec (s : GoStore) : Block → List Bytes → Bytes → Prop
  | found : ∀ b, canonicalChk s b = true → ForkWalkSpec s b [] b.headerHash
  | step : ∀ b p path fp, canonicalChk s b = false → b.blockNumber ≠ 0 →
      getBlock s b.prevHeaderHash = some p → ForkWalkSpec s p path fp →
      ForkWalkSpec s b (b.headerHash :: path) fp

/-! Concrete instances used by the counterexample and witness theorems. -/

/-- A small configuration: no reorg limit, identity difficulty tracker,
one genesis balance (address 10: 100) and one genesis transfer
(70 stays at 10, 30 goes to 11), coinbase to address 12. -/
def cfg0 : Cfg :=
  { reorgLimit := 0, miningSetpointBlocktime := 60, genesisDifficulty := 4,
    dtGet := fun _ p => p, genesisBalances := [([10], 100)],
    genesisCoinbaseAddrTo := [12], genesisCoinbaseValid := true,
    genesisCoinbaseApply := fun m => m,
    genesisTransfersAddrsTo := [[[11]]],
    genesisTransfersApply := [fun m => aupdate (aupdate m [10] 70) [11] 30],
    genesisBlockNumber := 0 }

/-- Genesis block (header hash [0], height 0). -/
def gBlk : Block :=
  { headerHash := [0], prevHeaderHash := [], blockNumber := 0, blockSize := 1,
    transactions := [], prepareAddressesList := [],
    applyStateChanges := fun m => some m }

/-- Main-chain block 1 (header hash [1], child of genesis). -/
def b1Blk : Block :=
  { headerHash := [1], prevHeaderHash := [0], blockNumber := 1, blockSize := 1,
    transactions := [], prepareAddressesList := [],
    applyStateChanges := fun m => some m }

/-- A consistent two-block main chain: the tip is canonical at its
height (invariant I1 holds). -/
def store0 : GoStore :=
  { blocks := [([0], gBlk), ([1], b1Blk)],
    numMapping := [(0, ⟨[0], []⟩), (1, ⟨[1], [0]⟩)],
    metadata := [], addrStates := [], chainHeight := some 1, forkState := none,
    txMeta := [], sizeLimitOf := some 1000, addrsPutOk := true, putBlockOk := true }

/-- Chain over store0 with tip b1Blk. -/
def chain0 : ChainSt :=
  { config := cfg0, store := store0, lastBlock := some b1Blk,
    currentDifficulty := 4, triggerMiner := false, events := [] }

/-- Side-chain block 1 (header hash [2], child of genesis). -/
def sb1Blk : Block :=
  { headerHash := [2], prevHeaderHash := [0], blockNumber := 1, blockSize := 1,
    transactions := [], prepareAddressesList := [],
    applyStateChanges := fun m => some m }

/-- Side-chain block 2 (header hash [3], child of sb1Blk). -/
def sb2Blk : Block :=
  { headerHash := [3], prevHeaderHash := [2], blockNumber := 2, blockSize := 1,
    transactions := [], prepareAddressesList := [],
    applyStateChanges := fun m => some m }

/-- Store holding the main chain genesis..b1 plus a stored side chain
sb1..sb2 forking at genesis; b1 is canonical at height 1. -/
def storeC2 : GoStore :=
  { blocks := [([0], gBlk), ([1], b1Blk), ([2], sb1Blk), ([3], sb2Blk)],
    numMapping := [(0, ⟨[0], []⟩), (1, ⟨[1], [0]⟩)],
    metadata := [], addrStates := [([10], 7)], chainHeight := some 1,
    forkState := none, txMeta := [], sizeLimitOf := some 1000,
    addrsPutOk := true, putBlockOk := true }

/-- Chain over storeC2 with tip b1Blk. -/
def chainC2 : ChainSt :=
  { config := cfg0, store := storeC2, lastBlock := some b1Blk,
    currentDifficulty := 4, triggerMiner := false, events := [] }

/-- Fresh ForkState for the side-chain tip sb2Blk (fork point not yet
discovered). -/
def fs0C2 : ForkStateRec := ⟨[3], [], [], []⟩

/-- A block with no parent stored (header hash [9], parent [8] missing
from storeC2, height 3 not in the number mapping). -/
def orphanBlk : Block :=
  { headerHash := [9], prevHeaderHash := [8], blockNumber := 3, blockSize := 1,
    transactions := [], prepareAddressesList := [],
    applyStateChanges := fun m => some m }

/-- Coinbase transaction of the two-transaction block: its revert would
set address 20 to 99. -/
def txA : Tx := ⟨true, 0, [20], fun m => aupdate m [20] 99⟩

/-- Transfer transaction of the two-transaction block: its revert would
set address 21 to 99. -/
def txB : Tx := ⟨false, 3, [21], fun m => aupdate m [21] 99⟩

/-- A block with two transactions (coinbase txA and transfer txB). -/
def blkC3 : Block :=
  { headerHash := [5], prevHeaderHash := [1], blockNumber := 2, blockSize := 1,
    transactions := [txA, txB], prepareAddressesList := [[20], [21]],
    applyStateChanges := fun m => some m }

/-- Store with address states 20 and 21 populated (5 and 6). -/
def storeC3 : GoStore :=
  { blocks := [], numMapping := [], metadata := [],
    addrStates := [([20], 5), ([21], 6)], chainHeight := some 2,
    forkState := none, txMeta := [], sizeLimitOf := some 1000,
    addrsPutOk := true, putBlockOk := true }

/-- Chain over storeC3 with tip blkC3. -/
def chainC3 : ChainSt :=
  { config := cfg0, store := storeC3, lastBlock := some blkC3,
    currentDifficulty := 4, triggerMiner := false, events := [] }

/-- Configuration with reorg limit 1. -/
def cfgC4 : Cfg := { cfg0 with reorgLimit := 1 }

/-- Store of a chain sitting at genesis (height 0), with metadata making
block 1 strictly heavier. -/
def storeC4 : GoStore :=
  { blocks := [([0], gBlk)], numMapping := [(0, ⟨[0], []⟩)],
    metadata := [([0], ⟨4, 4⟩), ([1], ⟨4, 8⟩)], addrStates := [],
    chainHeight := some 0, forkState := none, txMeta := [],
    sizeLimitOf := some 1000, addrsPutOk := true, putBlockOk := true }

/-- Chain at genesis with reorg limit 1: tip height (0) is at most the
reorg limit (1), so per the claim the height window rejects nothing. -/
def chainC4 : ChainSt :=
  { config := cfgC4, store := storeC4, lastBlock := some gBlk,
    currentDifficulty := 4, triggerMiner := false, events := [] }

/-- Tip block for the side-block scenarios (header hash [1], cumulative
difficulty 10 in storeC5's metadata). -/
def tipC5 : Block :=
  { headerHash := [1], prevHeaderHash := [0], blockNumber := 1, blockSize := 1,
    transactions := [], prepareAddressesList := [],
    applyStateChanges := fun m => some m }

/-- A block that extends the tip (prev [1]) with stored cumulative
difficulty 5 (less than the tip's 10) whose application writes 42 into
address 10. -/
def blkC5 : Block :=
  { headerHash := [2], prevHeaderHash := [1], blockNumber := 2, blockSize := 10,
    transactions := [], prepareAddressesList := [[10]],
    applyStateChanges := fun m => some (aupdate m [10] 42) }

/-- Store with tip metadata (5, 10), candidate metadata (5, 5), and
address 10 holding 0. -/
def storeC5 : GoStore :=
  { blocks := [([0], gBlk), ([1], tipC5)],
    numMapping := [(0, ⟨[0], []⟩), (1, ⟨[1], [0]⟩)],
    metadata := [([1], ⟨5, 10⟩), ([2], ⟨5, 5⟩)], addrStates := [([10], 0)],
    chainHeight := some 1, forkState := none, txMeta := [],
    sizeLimitOf := some 1000, addrsPutOk := true, putBlockOk := true }

/-- Chain over storeC5 with tip tipC5. -/
def chainC5 : ChainSt :=
  { config := cfg0, store := storeC5, lastBlock := some tipC5,
    currentDifficulty := 4, triggerMiner := false, events := [] }

/-- A true side block: parent [7] differs from the tip's hash [1], and
its stored cumulative difficulty ties the tip's (10 = 10). -/
def blkSide : Block :=
  { headerHash := [3], prevHeaderHash := [7], blockNumber := 2, blockSize := 10,
    transactions := [], prepareAddressesList := [],
    applyStateChanges := fun m => some m }

/-- storeC5 extended with metadata for the side block (tie at 10). -/
def storeSide : GoStore :=
  { storeC5 with metadata := [([1], ⟨5, 10⟩), ([2], ⟨5, 5⟩), ([3], ⟨5, 10⟩)] }

/-- Chain over storeSide with tip tipC5. -/
def chainSide : ChainSt :=
  { chainC5 with store := storeSide }

/-- An empty store without a chain height: Load takes the cold-start
branch on it. -/
def storeCold : GoStore :=
  { blocks := [], numMapping := [], metadata := [], addrStates := [],
    chainHeight := none, forkState := none, txMeta := [],
    sizeLimitOf := some 1000, addrsPutOk := true, putBlockOk := true }

/-- A freshly created chain (CreateChain leaves lastBlock nil). -/
def chainCold : ChainSt :=
  { config := cfg0, store := storeCold, lastBlock := none,
    currentDifficulty := 0, triggerMiner := false, events := [] }

/-- A block extending the tip b1Blk whose ApplyStateChanges always
fails (semantic rejection). -/
def blkFailApply : Block :=
  { headerHash := [4], prevHeaderHash := [1], blockNumber := 2, blockSize := 1,
    transactions := [], prepareAddressesList := [],
    applyStateChanges := fun _ => none }

/-! Theorems. -/

/-- Looking a key up right after updating it yields the new value. -/
theorem alookup_aupdate {κ α : Type} [DecidableEq κ] (l : List (κ × α))
    (k : κ) (v : α) : alookup (aupdate l k v) k = some v := by
  induction l with
  | nil => simp [aupdate, alookup]
  | cons p t ih =>
    obtain ⟨k', v'⟩ := p
    by_cases h : k' = k
    · simp [aupdate, alookup, h]
    · simp [aupdate, alookup, h, ih]

/-- C1.  On a consistent chain (the BlockNumberMapping entry at the
tip's height names exactly the current tip, as the last two conjuncts
record) with the fork point one block below the tip, Rollback performs
no iteration at all: the source breaks when the canonical block at the
tip's height has the SAME header hash as the tip — the opposite of the
claimed stop condition — so it returns an empty hashPath, removes no
block, commits no batch, and leaves the tip and the chain height
untouched instead of removing the tip and stopping at the fork point. -/
theorem rollback_breaks_on_canonical_tip :
    (Rollback 3 chain0 [0] none).map (fun r =>
      (r.1, r.2.2.lastBlock.map Block.headerHash, r.2.2.store.chainHeight,
       r.2.2.store.numMapping, r.2.2.events.length)) =
      .ok ([], some [1], some 1, [(0, ⟨[0], []⟩), (1, ⟨[1], [0]⟩)], 0) ∧
    (getBlockByNumber chain0.store 1).map Block.headerHash = some [1] ∧
    chain0.lastBlock.map Block.headerHash = some [1] :=
  ⟨rfl, rfl, rfl⟩

/-- C2.  Fresh fork recovery on a concrete two-branch chain:
GetForkPoint does discover fork point [0] with new-mainchain path
[[3], [2]] (second conjunct), and forkRecovery persists exactly those
values into the ForkState (the first traced event).  But because the
:= inside the else branch shadows the outer locals, the subsequent
rollback and re-apply run with a nil fork hash and an empty path: the
only other event is the final DeleteForkState, no rollback or apply
batch is ever committed, the tip stays at the old main-chain block [1],
the address states are untouched, and the function still reports
success — instead of rolling back to [0] and applying [2] then [3]. -/
theorem forkRecovery_drops_discovered_values :
    (forkRecovery 9 chainC2 sb2Blk fs0C2).map (fun r =>
      (r.1, r.2.lastBlock.map Block.headerHash, r.2.store.forkState,
       r.2.store.chainHeight, r.2.store.addrStates, r.2.events)) =
      .ok (true, some [1], none, some 1, [([10], 7)],
        [.imm (.putForkState ⟨[3], [0], [[3], [2]], []⟩),
         .imm .deleteForkState]) ∧
    GetForkPoint 9 chainC2 sb2Blk = .ok (.ok ([0], [[3], [2]])) :=
  ⟨rfl, rfl⟩

/-- C3.  For a block with two transactions, the transaction loop of
RemoveBlockFromMainchain (bound i <= 0 in the source, rather than
i >= 0) executes zero iterations: the trace holds no revertTx and no
unsetOTS event, and the address map written back is exactly the
untouched materialised one (20 at 5, 21 at 6), although both
transactions' reverts would have written 99.  The rest of the function
still runs: pool re-add, chain-height decrement, metadata rollback,
mapping removal. -/
theorem removeBlock_reverts_nothing :
    blkC3.transactions.length = 2 ∧
    (RemoveBlockFromMainchain chainC3 blkC3 2 []).map (fun r =>
      (r.1.events, r.2)) =
      .ok ([.pool (.addTxFromBlock [5] 2), .imm (.removeNumMapping 2)],
        [.putChainHeight 1, .rollbackTxMeta [5], .putAddrs [([20], 5), ([21], 6)]]) :=
  ⟨rfl, rfl⟩

/-- C4.  The height-window subtraction is Go uint64 arithmetic, not
integer arithmetic: with tip height 0 and reorg limit 1 (tip height at
most the reorg limit, so by the claim nothing may be rejected, and over
the integers 1 < 0 - 1 is false), the code computes 0 - 1 = 2^64 - 1
and rejects the direct successor of the genesis tip without touching
any state. -/
theorem addBlock_heightWindow_underflows :
    subU64 0 1 = 2 ^ 64 - 1 ∧
    ¬ ((1 : Int) < (0 : Int) - 1) ∧
    b1Blk.blockNumber = 1 ∧ chainC4.config.reorgLimit = 1 ∧
    (AddBlock 1 chainC4 b1Blk).map (fun r =>
      (r.1, r.2.events.length, r.2.store.chainHeight)) =
      .ok (false, 0, some 0) :=
  ⟨rfl, by decide, rfl, rfl, rfl⟩

/-- C5 counterexample.  A non-duplicate block inside the height window
and size limit whose stored cumulative difficulty (5) is below the
tip's (10), but whose parent IS the tip: AddBlock returns true as the
claim states, yet the committed batch carries the applyBlock address
mutation, so the address states do NOT stay unchanged — address 10
moves from 0 to 42 (the tip itself stays in place). -/
theorem addBlock_tipChild_le_mutates_state :
    getBlockMetadata chainC5.store [2] = some ⟨5, 5⟩ ∧
    getBlockMetadata chainC5.store [1] = some ⟨5, 10⟩ ∧
    blkC5.prevHeaderHash = [1] ∧
    alookup chainC5.store.addrStates [10] = some 0 ∧
    (AddBlock 1 chainC5 blkC5).map (fun r =>
      (r.1, alookup r.2.store.addrStates [10], r.2.lastBlock.map Block.headerHash,
       r.2.store.chainHeight, r.2.store.forkState)) =
      .ok (true, some 42, some [1], some 1, none) :=
  ⟨rfl, rfl, rfl, rfl, rfl⟩

/-- C8 counterexample.  A concrete cold start: Load persists the
genesis data — chain height 0, the transaction metadata, the
address-state map — and the whole trace contains ZERO atomic batch
commits (all six writes are immediate nil-batch writes), so the three
are not persisted together under a single atomic batch. -/
theorem loadCold_commits_no_batch :
    (Load 1 chainCold gBlk).map (fun c =>
      (countBat c.events, c.events.length, c.store.chainHeight,
       c.store.txMeta, c.store.addrStates)) =
      .ok (0, 6, some 0, [[0]], [([10], 70), ([11], 30), ([12], 0)]) :=
  rfl

/-- C7.  If a block extends the tip (its prev_header_hash equals the
tip's header hash) and applyBlock fails — ApplyStateChanges returns
failure on every input, or PutAddressesState fails — then AddBlock
returns false and the chain value is returned completely unchanged: no
batch commit, no store write, no pool call, same tip. -/
theorem addBlock_applyFail_rejects (fuel : Nat) (c : ChainSt)
    (block lb : Block)
    (h1 : c.lastBlock = some lb)
    (h2 : lb.headerHash = block.prevHeaderHash)
    (h3 : (∀ m, block.applyStateChanges m = none) ∨ c.store.addrsPutOk = false) :
    AddBlock fuel c block = .ok (false, c) := by
  have happly : applyBlock c block [] = (false, []) := by
    unfold applyBlock
    rcases h3 with h3 | h3
    · simp only [h3]
    · cases hap : block.applyStateChanges
        (getAddressesState c.store block.prepareAddressesList) with
      | none => simp only [hap]
      | some m => simp [hap, h3]
  have hinner : addBlock fuel c block [] = .ok (false, false, c, []) := by
    unfold addBlock
    simp [h1, h2, happly]
  unfold AddBlock
  simp [h1, hinner]

/-- Witness for C7 at a concrete chain and failing block. -/
theorem addBlock_applyFail_rejects_witness :
    AddBlock 1 chain0 blkFailApply = .ok (false, chain0) :=
  addBlock_applyFail_rejects 1 chain0 blkFailApply b1Blk rfl rfl
    (Or.inl fun _ => rfl)

/-- C5 amended.  A true side block — non-duplicate, inside the height
window (as the code computes it) and the size limit, cumulative
difficulty at most the tip's, and parent DIFFERENT from the tip — is
accepted: AddBlock returns true, the block body is persisted, and the
tip, chain height, BlockNumberMapping, address states and ForkState are
all unchanged (ties included, since only strictly greater difficulty
moves the tip). -/
theorem addBlock_sideBlock_frame (fuel : Nat) (c : ChainSt)
    (block lb : Block) (lim : Nat) (lmd nmd : BlockMetaData)
    (h1 : c.lastBlock = some lb)
    (h2 : ¬ (block.blockNumber < subU64 lb.blockNumber c.config.reorgLimit))
    (h3 : getBlock c.store block.headerHash = none)
    (h4 : c.store.sizeLimitOf = some lim)
    (h5 : block.blockSize ≤ lim)
    (h6 : ¬ (lb.headerHash = block.prevHeaderHash))
    (h7 : c.store.putBlockOk = true)
    (h8 : getBlockMetadata c.store lb.headerHash = some lmd)
    (h9 : getBlockMetadata c.store block.headerHash = some nmd)
    (h10 : nmd.totalDifficulty ≤ lmd.totalDifficulty) :
    ∃ c', AddBlock fuel c block = .ok (true, c') ∧
      getBlock c'.store block.headerHash = some block ∧
      c'.lastBlock = c.lastBlock ∧
      c'.store.chainHeight = c.store.chainHeight ∧
      c'.store.numMapping = c.store.numMapping ∧
      c'.store.addrStates = c.store.addrStates ∧
      c'.store.forkState = c.store.forkState := by
  have hsz : decide (block.blockSize > lim) = false := by
    simp only [decide_eq_false_iff_not, not_lt]
    exact h5
  have hinner : addBlock fuel c block [] = .ok (true, false, c, [.putBlock block]) := by
    unfold addBlock
    simp [h1, h4, hsz, h7, h8, h9, h6, not_lt.mpr h10]
  unfold AddBlock
  simp only [h1, if_neg h2, h3, Option.isSome_none, Bool.false_eq_true, ite_false,
    hinner]
  refine ⟨stCommit c [.putBlock block], rfl, ?_, ?_, ?_, ?_, ?_, ?_⟩
  · simp only [stCommit, List.foldl, applyW, getBlock]
    exact alookup_aupdate c.store.blocks block.headerHash block
  · simp [stCommit, h1]
  · simp [stCommit, applyW]
  · simp [stCommit, applyW]
  · simp [stCommit, applyW]
  · simp [stCommit, applyW]

/-- Witness for C5's amended theorem: a concrete side block whose
cumulative difficulty ties the tip's. -/
theorem addBlock_sideBlock_frame_witness :
    ∃ c', AddBlock 1 chainSide blkSide = .ok (true, c') ∧
      getBlock c'.store blkSide.headerHash = some blkSide ∧
      c'.lastBlock = chainSide.lastBlock ∧
      c'.store.chainHeight = chainSide.store.chainHeight ∧
      c'.store.numMapping = chainSide.store.numMapping ∧
      c'.store.addrStates = chainSide.store.addrStates ∧
      c'.store.forkState = chainSide.store.forkState :=
  addBlock_sideBlock_frame 1 chainSide blkSide tipC5 1000 ⟨5, 10⟩ ⟨5, 10⟩
    rfl (by decide) rfl rfl (by decide) (by decide) rfl rfl rfl (by decide)

/-- C8 amended.  On any cold start (no chain height) with a valid
genesis coinbase, Load performs exactly six separate immediate
(nil-batch) store writes — genesis block, number mapping, metadata,
address-state map, transaction metadata, and chain height 0 last — and
zero atomic batch commits. -/
theorem loadCold_separateWrites (fuel : Nat) (c : ChainSt) (gb : Block)
    (h1 : c.store.chainHeight = none)
    (h2 : c.config.genesisCoinbaseValid = true)
    (h3 : c.events = []) :
    ∃ c', Load fuel c gb = .ok c' ∧
      c'.events =
        [.imm (.putBlock gb),
         .imm (.putNumMapping gb.blockNumber ⟨gb.headerHash, gb.prevHeaderHash⟩),
         .imm (.putMetadata gb.headerHash
           ⟨c.config.dtGet c.config.miningSetpointBlocktime c.config.genesisDifficulty,
            c.config.dtGet c.config.miningSetpointBlocktime c.config.genesisDifficulty⟩),
         .imm (.putAddrs (genesisAddressesState c.config)),
         .imm (.updateTxMeta gb.headerHash),
         .imm (.putChainHeight 0)] ∧
      countBat c'.events = 0 := by
  unfold Load
  simp only [h1, stWrite]
  simp only [h2, Bool.true_eq_false, if_false]
  refine ⟨_, rfl, ?_, ?_⟩
  · simp [h3]
  · simp [h3, countBat]

/-- Witness for C8's amended theorem at the concrete cold chain. -/
theorem loadCold_separateWrites_witness :
    ∃ c', Load 1 chainCold gBlk = .ok c' ∧
      c'.events =
        [.imm (.putBlock gBlk),
         .imm (.putNumMapping gBlk.blockNumber ⟨gBlk.headerHash, gBlk.prevHeaderHash⟩),
         .imm (.putMetadata gBlk.headerHash
           ⟨chainCold.config.dtGet chainCold.config.miningSetpointBlocktime
              chainCold.config.genesisDifficulty,
            chainCold.config.dtGet chainCold.config.miningSetpointBlocktime
              chainCold.config.genesisDifficulty⟩),
         .imm (.putAddrs (genesisAddressesState chainCold.config)),
         .imm (.updateTxMeta gBlk.headerHash),
         .imm (.putChainHeight 0)] ∧
      countBat c'.events = 0 :=
  loadCold_separateWrites 1 chainCold gBlk rfl rfl rfl

/-- C10.  A successful cold-start Load never assigns the in-memory tip:
the resulting lastBlock is still nil, so Height() panics on the nil
tip, and so does every subsequent AddBlock (which calls Height()
first), for any candidate block and any fuel. -/
theorem loadCold_leaves_nil_tip (fuel : Nat) (c : ChainSt) (gb blk : Block)
    (h1 : c.store.chainHeight = none)
    (h2 : c.lastBlock = none)
    (h3 : c.config.genesisCoinbaseValid = true) :
    ∃ c', Load fuel c gb = .ok c' ∧ c'.lastBlock = none ∧
      Height c' = .error nilPanic ∧
      (∀ fuel2, AddBlock fuel2 c' blk = .error nilPanic) := by
  unfold Load
  simp only [h1, stWrite]
  simp only [h3, Bool.true_eq_false, if_false]
  refine ⟨_, rfl, ?_, ?_, ?_⟩
  · simp [h2]
  · unfold Height
    simp [h2]
  · intro fuel2
    unfold AddBlock
    simp [h2]

/-- Witness for C10 at the concrete cold chain and a candidate block. -/
theorem loadCold_leaves_nil_tip_witness :
    ∃ c', Load 1 chainCold gBlk = .ok c' ∧ c'.lastBlock = none ∧
      Height c' = .error nilPanic ∧
      (∀ fuel2, AddBlock fuel2 c' b1Blk = .error nilPanic) :=
  loadCold_leaves_nil_tip 1 chainCold gBlk b1Blk rfl rfl rfl

/-- countBat distributes over trace concatenation. -/
theorem countBat_append (a b : List TraceEv) :
    countBat (a ++ b) = countBat a + countBat b := by
  induction a with
  | nil => simp [countBat]
  | cons e t ih => cases e <;> simp [countBat, ih] <;> omega

/-- The first loop of AddChain finds the index right after the first
occurrence of the tip hash. -/
theorem findStartAux_notin (x : Bytes) (pre rest : List Bytes)
    (h : x ∉ pre) : ∀ i, findStartAux x (pre ++ x :: rest) i = i + (pre.length + 1) := by
  induction pre with
  | nil => intro i; simp [findStartAux]
  | cons p t ih =>
    intro i
    have hpx : ¬ (p = x) := fun he => h (by simp [he])
    have ht : x ∉ t := fun hm => h (List.mem_cons_of_mem _ hm)
    simp only [List.cons_append, findStartAux, if_neg hpx, List.append_eq]
    rw [ih ht (i + 1)]
    simp only [List.length_cons]
    omega

/-- Dropping past the first occurrence of the tip hash leaves exactly
the remainder of the path. -/
theorem drop_skip (pre rest : List Bytes) (x : Bytes) :
    (pre ++ x :: rest).drop (pre.length + 1) = rest := by
  induction pre with
  | nil => simp
  | cons p t ih => simpa using ih

/-- C6's skip behaviour in one equation: the prefix up to and including
the first occurrence of the tip hash is dropped. -/
theorem addChain_skips_to_tip (c : ChainSt) (fs : Option ForkStateRec)
    (pre rest : List Bytes) (lb : Block)
    (h1 : c.lastBlock = some lb) (h2 : lb.headerHash ∉ pre) :
    AddChain c (pre ++ lb.headerHash :: rest) fs = AddChainLoop c rest := by
  have hfind := findStartAux_notin lb.headerHash pre rest h2 0
  have hdrop := drop_skip pre rest lb.headerHash
  cases pre with
  | nil =>
    unfold AddChain
    simp only [List.nil_append, h1]
    simp only [List.nil_append] at hfind hdrop
    rw [hfind]
    simpa using congrArg (AddChainLoop c) hdrop
  | cons p t =>
    unfold AddChain
    simp only [List.cons_append, h1]
    simp only [List.cons_append] at hfind hdrop
    rw [hfind]
    simpa using congrArg (AddChainLoop c) hdrop

/-- One successful iteration of the AddChain loop: load, apply, update
chain state, commit one batch. -/
theorem addChainLoop_cons (c : ChainSt) (hh : Bytes) (t : List Bytes)
    (b : Block) (m1 : AddrMap)
    (hb : getBlock c.store hh = some b)
    (hm1 : b.applyStateChanges
      (getAddressesState c.store b.prepareAddressesList) = some m1)
    (hput : c.store.addrsPutOk = true) :
    AddChainLoop c (hh :: t) =
      AddChainLoop
        (stCommit (poolCall { c with lastBlock := some b }
            (.removeTxInBlock b.headerHash))
          [.putAddrs m1,
           .putNumMapping b.blockNumber ⟨b.headerHash, b.prevHeaderHash⟩,
           .putChainHeight b.blockNumber,
           .updateTxMeta b.headerHash]) t := by
  simp only [AddChainLoop]
  simp [hb, applyBlock, hm1, hput, updateChainState, updateBlockNumberMapping]

/-- If every remaining hash resolves to a stored block whose application
succeeds, the AddChain loop applies them all: it returns true, the
stored ForkState ends deleted, the block bodies are untouched, exactly
one batch is committed per applied block, and the tip ends at the block
of the last hash (or stays put when there is nothing left to apply). -/
theorem addChainLoop_ok (rest : List Bytes) : ∀ (c : ChainSt),
    c.store.addrsPutOk = true →
    (∀ hh ∈ rest, ∃ b, getBlock c.store hh = some b ∧ appliesAll b) →
    ∃ c', AddChainLoop c rest = .ok (true, c') ∧
      c'.store.forkState = none ∧
      c'.store.blocks = c.store.blocks ∧
      countBat c'.events = countBat c.events + rest.length ∧
      (rest = [] → c'.lastBlock = c.lastBlock) ∧
      (∀ x, rest.getLast? = some x → c'.lastBlock = getBlock c.store x) := by
  induction rest with
  | nil =>
    intro c hput hgood
    refine ⟨stWrite c .deleteForkState, by simp only [AddChainLoop], ?_, ?_, ?_, ?_, ?_⟩
    · simp [stWrite, applyW]
    · simp [stWrite, applyW]
    · simp [stWrite, countBat_append, countBat]
    · intro _; simp [stWrite]
    · intro x hx; simp at hx
  | cons hh t ih =>
    intro c hput hgood
    obtain ⟨b, hb, happ⟩ := hgood hh (List.mem_cons_self hh t)
    obtain ⟨m1, hm1⟩ := Option.isSome_iff_exists.mp
      (happ (getAddressesState c.store b.prepareAddressesList))
    have hstep := addChainLoop_cons c hh t b m1 hb hm1 hput
    set c2 := stCommit (poolCall { c with lastBlock := some b }
        (.removeTxInBlock b.headerHash))
      [.putAddrs m1,
       .putNumMapping b.blockNumber ⟨b.headerHash, b.prevHeaderHash⟩,
       .putChainHeight b.blockNumber,
       .updateTxMeta b.headerHash] with hc2
    have hblocks : c2.store.blocks = c.store.blocks := by
      simp [hc2, stCommit, poolCall, pushEv, applyW]
    have hput2 : c2.store.addrsPutOk = true := by
      simp [hc2, stCommit, poolCall, pushEv, applyW, hput]
    have hev : countBat c2.events = countBat c.events + 1 := by
      simp [hc2, stCommit, poolCall, pushEv, countBat_append, countBat]
    have hlast2 : c2.lastBlock = some b := by
      simp [hc2, stCommit, poolCall, pushEv]
    have hgood2 : ∀ x ∈ t, ∃ bb, getBlock c2.store x = some bb ∧ appliesAll bb := by
      intro x hx
      obtain ⟨bb, hbb, hbba⟩ := hgood x (List.mem_cons_of_mem _ hx)
      refine ⟨bb, ?_, hbba⟩
      simp only [getBlock] at hbb ⊢
      rw [hblocks]
      exact hbb
    obtain ⟨c', hloop, hfork', hblocks', hcount', hnil', hlast'⟩ := ih c2 hput2 hgood2
    refine ⟨c', ?_, hfork', ?_, ?_, ?_, ?_⟩
    · rw [hstep]
      exact hloop
    · rw [hblocks', hblocks]
    · rw [hcount', hev]
      simp only [List.length_cons]
      omega
    · intro h
      exact absurd h (List.cons_ne_nil hh t)
    · intro x hx
      cases t with
      | nil =>
        have hxh : x = hh := by
          have := hx
          simp at this
          exact this.symm
        have := hnil' rfl
        rw [this, hlast2, hxh, hb]
      | cons y ys =>
        rw [List.getLast?_cons_cons] at hx
        have := hlast' x hx
        rw [this]
        simp only [getBlock]
        rw [hblocks]

/-- As soon as one hash's block fails to apply, the AddChain loop stops
with false: the stored ForkState is untouched and only the successfully
applied prefix was committed (one batch per applied block). -/
theorem addChainLoop_fail (pre : List Bytes) : ∀ (c : ChainSt) (hh : Bytes)
    (t : List Bytes) (bf : Block),
    c.store.addrsPutOk = true →
    (∀ x ∈ pre, ∃ b, getBlock c.store x = some b ∧ appliesAll b) →
    getBlock c.store hh = some bf →
    (∀ m, bf.applyStateChanges m = none) →
    ∃ c', AddChainLoop c (pre ++ hh :: t) = .ok (false, c') ∧
      c'.store.forkState = c.store.forkState ∧
      countBat c'.events = countBat c.events + pre.length := by
  induction pre with
  | nil =>
    intro c hh t bf hput hgood hbf hfail
    refine ⟨c, ?_, rfl, by simp⟩
    simp only [List.nil_append, AddChainLoop]
    simp [hbf, applyBlock, hfail]
  | cons p ps ih =>
    intro c hh t bf hput hgood hbf hfail
    obtain ⟨b, hb, happ⟩ := hgood p (List.mem_cons_self p ps)
    obtain ⟨m1, hm1⟩ := Option.isSome_iff_exists.mp
      (happ (getAddressesState c.store b.prepareAddressesList))
    have hstep := addChainLoop_cons c p (ps ++ hh :: t) b m1 hb hm1 hput
    set c2 := stCommit (poolCall { c with lastBlock := some b }
        (.removeTxInBlock b.headerHash))
      [.putAddrs m1,
       .putNumMapping b.blockNumber ⟨b.headerHash, b.prevHeaderHash⟩,
       .putChainHeight b.blockNumber,
       .updateTxMeta b.headerHash] with hc2
    have hblocks : c2.store.blocks = c.store.blocks := by
      simp [hc2, stCommit, poolCall, pushEv, applyW]
    have hput2 : c2.store.addrsPutOk = true := by
      simp [hc2, stCommit, poolCall, pushEv, applyW, hput]
    have hfork2 : c2.store.forkState = c.store.forkState := by
      simp [hc2, stCommit, poolCall, pushEv, applyW]
    have hev : countBat c2.events = countBat c.events + 1 := by
      simp [hc2, stCommit, poolCall, pushEv, countBat_append, countBat]
    have hgood2 : ∀ x ∈ ps, ∃ bb, getBlock c2.store x = some bb ∧ appliesAll bb := by
      intro x hx
      obtain ⟨bb, hbb, hbba⟩ := hgood x (List.mem_cons_of_mem _ hx)
      refine ⟨bb, ?_, hbba⟩
      simp only [getBlock] at hbb ⊢
      rw [hblocks]
      exact hbb
    have hbf2 : getBlock c2.store hh = some bf := by
      simp only [getBlock] at hbf ⊢
      rw [hblocks]
      exact hbf
    obtain ⟨c', hloop, hfork', hcount'⟩ := ih c2 hh t bf hput2 hgood2 hbf2 hfail
    refine ⟨c', ?_, ?_, ?_⟩
    · rw [List.cons_append, hstep]
      exact hloop
    · rw [hfork', hfork2]
    · rw [hcount', hev]
      simp only [List.length_cons]
      omega

/-- C6.  AddChain(hash_path, fork_state), in three parts.
Skip: when the path is a prefix not containing the tip hash, then the
tip hash, then a remainder, AddChain processes exactly the remainder.
Success: if every remaining hash has a stored block that applies, the
result is true, the stored ForkState ends deleted, exactly one batch is
committed per remaining block, and the tip ends at the last hash's
block.  Failure: if the blocks of a prefix of the remainder apply but
the next one's ApplyStateChanges always fails, the result is false, the
stored ForkState is unchanged (not deleted), and only the successful
prefix was committed, one batch per block. -/
theorem addChain_spec :
    (∀ (c : ChainSt) (fs : Option ForkStateRec) (pre rest : List Bytes)
      (lb : Block),
      c.lastBlock = some lb → lb.headerHash ∉ pre →
      AddChain c (pre ++ lb.headerHash :: rest) fs = AddChainLoop c rest) ∧
    (∀ (c : ChainSt) (fs : Option ForkStateRec) (pre rest : List Bytes)
      (lb : Block),
      c.lastBlock = some lb → lb.headerHash ∉ pre →
      c.store.addrsPutOk = true →
      (∀ hh ∈ rest, ∃ b, getBlock c.store hh = some b ∧ appliesAll b) →
      ∃ c', AddChain c (pre ++ lb.headerHash :: rest) fs = .ok (true, c') ∧
        c'.store.forkState = none ∧
        countBat c'.events = countBat c.events + rest.length ∧
        (rest = [] → c'.lastBlock = c.lastBlock) ∧
        (∀ x, rest.getLast? = some x → c'.lastBlock = getBlock c.store x)) ∧
    (∀ (c : ChainSt) (fs : Option ForkStateRec) (pre app t : List Bytes)
      (hh : Bytes) (lb bf : Block),
      c.lastBlock = some lb → lb.headerHash ∉ pre →
      c.store.addrsPutOk = true →
      (∀ x ∈ app, ∃ b, getBlock c.store x = some b ∧ appliesAll b) →
      getBlock c.store hh = some bf →
      (∀ m, bf.applyStateChanges m = none) →
      ∃ c', AddChain c (pre ++ lb.headerHash :: (app ++ hh :: t)) fs =
          .ok (false, c') ∧
        c'.store.forkState = c.store.forkState ∧
        countBat c'.events = countBat c.events + app.length) := by
  refine ⟨?_, ?_, ?_⟩
  · intro c fs pre rest lb h1 h2
    exact addChain_skips_to_tip c fs pre rest lb h1 h2
  · intro c fs pre rest lb h1 h2 hput hgood
    rw [addChain_skips_to_tip c fs pre rest lb h1 h2]
    obtain ⟨c', h, hf, _, hc, hn, hl⟩ := addChainLoop_ok rest c hput hgood
    exact ⟨c', h, hf, hc, hn, hl⟩
  · intro c fs pre app t hh lb bf h1 h2 hput hgood hbf hfail
    rw [addChain_skips_to_tip c fs pre (app ++ hh :: t) lb h1 h2]
    exact addChainLoop_fail app c hh t bf hput hgood hbf hfail

/-- Witness for C6's theorem: the path [tip hash [1], side hash [2]]
over the concrete two-branch store; the tip prefix is skipped, block
[2] is applied, the ForkState ends deleted. -/
theorem addChain_spec_witness :
    ∃ c', AddChain chainC2 [[1], [2]] none = .ok (true, c') ∧
      c'.store.forkState = none ∧
      countBat c'.events = countBat chainC2.events + 1 ∧
      (([[2]] : List Bytes) = [] → c'.lastBlock = chainC2.lastBlock) ∧
      (∀ x, ([[2]] : List Bytes).getLast? = some x →
        c'.lastBlock = getBlock chainC2.store x) :=
  addChain_spec.2.1 chainC2 none [] [[2]] b1Blk rfl (by simp) rfl
    (by
      intro hh hm
      simp at hm
      subst hm
      exact ⟨sb1Blk, rfl, fun m => rfl⟩)

/-- Soundness of the GetForkPoint loop: a successful run is a
ForkWalkSpec parent walk, and the returned path extends the
accumulator with the walked hashes. -/
theorem gfpLoop_sound : ∀ (fuel : Nat) (s : GoStore) (b : Block)
    (acc : List Bytes) (fp : Bytes) (res : List Bytes),
    GetForkPointLoop fuel s (some b) acc = .ok (.ok (fp, res)) →
    ∃ path, res = acc ++ path ∧ ForkWalkSpec s b path fp := by
  intro fuel
  induction fuel with
  | zero =>
    intro s b acc fp res h
    exact absurd h (by simp [GetForkPointLoop])
  | succ n ih =>
    intro s b acc fp res h
    unfold GetForkPointLoop at h
    by_cases hc : canonicalChk s b = true
    · simp only [hc, if_true] at h
      obtain ⟨hfp, hres⟩ : b.headerHash = fp ∧ acc = res := by
        have h' := h
        simp only [Except.ok.injEq, Prod.mk.injEq] at h'
        exact h'
      refine ⟨[], by simp [hres.symm], ?_⟩
      rw [← hfp]
      exact ForkWalkSpec.found b hc
    · have hc' : canonicalChk s b = false := by
        simpa using hc
      simp only [hc', Bool.false_eq_true, if_false] at h
      by_cases hz : b.blockNumber = 0
      · simp [hz] at h
      · simp only [if_neg hz] at h
        cases hp : getBlock s b.prevHeaderHash with
        | none => simp [hp] at h
        | some p =>
          simp only [hp] at h
          obtain ⟨path', hres, hwalk⟩ := ih s p (acc ++ [b.headerHash]) fp res h
          refine ⟨b.headerHash :: path', ?_,
            ForkWalkSpec.step b p path' fp hc' hz hp hwalk⟩
          simp [hres]

/-- Completeness of the GetForkPoint loop: a ForkWalkSpec walk is found
by the loop with fuel exceeding the walk length, appending the walked
hashes to the accumulator. -/
theorem gfpLoop_complete : ∀ (s : GoStore) (b : Block) (path : List Bytes)
    (fp : Bytes), ForkWalkSpec s b path fp →
    ∀ (fuel : Nat) (acc : List Bytes), path.length < fuel →
    GetForkPointLoop fuel s (some b) acc = .ok (.ok (fp, acc ++ path)) := by
  intro s b path fp hw
  induction hw with
  | found b hc =>
    intro fuel acc hf
    cases fuel with
    | zero => omega
    | succ n =>
      unfold GetForkPointLoop
      simp [hc]
  | step b p path fp hc hz hp hw ih =>
    intro fuel acc hf
    cases fuel with
    | zero => omega
    | succ n =>
      unfold GetForkPointLoop
      simp only [hc, Bool.false_eq_true, if_false, if_neg hz, hp]
      rw [ih n (acc ++ [b.headerHash]) (by simp at hf; omega)]
      simp

/-- C9.  GetForkPoint, characterised.  (1) For some fuel the walk
returns fork point fp with collected path (which excludes fp) exactly
when a ForkWalkSpec parent walk exists: parents are followed from the
given block, each visited non-canonical block's header hash is
collected in order, and the walk stops at the first block agreeing with
the BlockNumberMapping at its height, whose hash is returned as the
fork point.  (2) At a non-canonical block of height 0 it returns the
incompatible-genesis error.  (3) At a non-canonical block of positive
height whose parent is missing from the store it returns the
no-block-found error. -/
theorem getForkPoint_spec (c : ChainSt) (b : Block) (fp : Bytes)
    (path : List Bytes) :
    ((∃ fuel, GetForkPoint fuel c b = .ok (.ok (fp, path))) ↔
      ForkWalkSpec c.store b path fp) ∧
    (canonicalChk c.store b = false → b.blockNumber = 0 →
      ∀ fuel, GetForkPoint (fuel + 1) c b = .ok (.error gfpGenesisMsg)) ∧
    (canonicalChk c.store b = false → b.blockNumber ≠ 0 →
      getBlock c.store b.prevHeaderHash = none →
      ∀ fuel, GetForkPoint (fuel + 1) c b = .ok (.error gfpNoBlockMsg)) := by
  refine ⟨⟨?_, ?_⟩, ?_, ?_⟩
  · rintro ⟨fuel, h⟩
    obtain ⟨path', hres, hwalk⟩ := gfpLoop_sound fuel c.store b [] fp path h
    have : path = path' := by simpa using hres
    rw [this]
    exact hwalk
  · intro hw
    exact ⟨path.length + 1,
      gfpLoop_complete c.store b path fp hw (path.length + 1) [] (by omega)⟩
  · intro hc hz fuel
    unfold GetForkPoint GetForkPointLoop
    simp [hc, hz]
  · intro hc hz hp fuel
    unfold GetForkPoint GetForkPointLoop
    simp [hc, hz, hp]

/-- Witness for C9: the forward direction extracts the concrete walk
from side block [2] to fork point [0], and the missing-parent error
fires for the orphan block. -/
theorem getForkPoint_spec_witness :
    ForkWalkSpec storeC2 sb1Blk [[2]] [0] ∧
    GetForkPoint 5 chainC2 orphanBlk = .ok (.error gfpNoBlockMsg) :=
  ⟨(getForkPoint_spec chainC2 sb1Blk [0] [[2]]).1.mp ⟨2, rfl⟩,
   (getForkPoint_spec chainC2 orphanBlk [] []).2.2 rfl (by decide) rfl 4⟩

end GoQrl
